import Mathlib

/- Shallow embedding of the SimpleLang compiler (final_cp.cpp, with the
   parser.cpp lexer variant modelled separately where a claim cites it).
   Pure translation: the lexer is a forward scan over the character list,
   the parser is fuel-indexed recursive descent returning Except (a thrown
   runtime_error is an error value), and the code generator threads an
   explicit state record (register counter, label counter, variable table,
   emitted lines). -/

namespace SLC

/-! ## Character classification (C locale, as used by the C++ code) -/

def isSpaceC (c : Char) : Bool :=
  c = ' ' || c = '\t' || c = '\n' || (c.toNat = 11) || (c.toNat = 12) || (c.toNat = 13)

def isDigitC (c : Char) : Bool :=
  48 ≤ c.toNat && c.toNat ≤ 57

def isAlphaC (c : Char) : Bool :=
  (65 ≤ c.toNat && c.toNat ≤ 90) || (97 ≤ c.toNat && c.toNat ≤ 122)

def isAlnumC (c : Char) : Bool :=
  isAlphaC c || isDigitC c

/-! ## Decimal rendering, modelling std::to_string on a nonnegative int -/

def digitChar : Nat → Char
  | 0 => '0' | 1 => '1' | 2 => '2' | 3 => '3' | 4 => '4'
  | 5 => '5' | 6 => '6' | 7 => '7' | 8 => '8' | _ => '9'

def natStrAux : Nat → Nat → List Char
  | 0, _ => []
  | f+1, n => if n < 10 then [digitChar n] else natStrAux f (n / 10) ++ [digitChar (n % 10)]

def natStr (n : Nat) : String := ⟨natStrAux (n + 1) n⟩

def intStr (v : Int) : String :=
  if v < 0 then "-" ++ natStr v.natAbs else natStr v.toNat

theorem digitChar_lt (n : Nat) : 48 ≤ (digitChar n).toNat ∧ (digitChar n).toNat ≤ 57 := by
  match n with
  | 0 | 1 | 2 | 3 | 4 | 5 | 6 | 7 | 8 => decide
  | _+9 => exact show 48 ≤ ('9').toNat ∧ ('9').toNat ≤ 57 by decide

theorem natStrAux_digits {f n : Nat} {c : Char} (h : c ∈ natStrAux f n) :
    48 ≤ c.toNat ∧ c.toNat ≤ 57 := by
  induction f generalizing n with
  | zero => simp [natStrAux] at h
  | succ f ih =>
    rw [natStrAux] at h
    by_cases hn : n < 10
    · rw [if_pos hn] at h
      simp at h
      subst h
      exact digitChar_lt n
    · rw [if_neg hn] at h
      rcases List.mem_append.mp h with h1 | h1
      · exact ih h1
      · simp at h1
        subst h1
        exact digitChar_lt (n % 10)

theorem natStrAux_stable : ∀ (f g n : Nat), n < f → n < g → natStrAux f n = natStrAux g n := by
  intro f
  induction f with
  | zero => intro g n h; omega
  | succ f ih =>
    intro g n hf hg
    match g, hg with
    | g+1, hg =>
      rw [natStrAux, natStrAux]
      by_cases hn : n < 10
      · rw [if_pos hn, if_pos hn]
      · rw [if_neg hn, if_neg hn]
        have hd : n / 10 < n := Nat.div_lt_self (by omega) (by omega)
        rw [ih g (n / 10) (by omega) (by omega)]

def digitsVal (cs : List Char) : Nat :=
  cs.foldl (fun a c => a * 10 + (c.toNat - 48)) 0

theorem digitsVal_append_one (cs : List Char) (c : Char) :
    digitsVal (cs ++ [c]) = digitsVal cs * 10 + (c.toNat - 48) := by
  simp [digitsVal, List.foldl_append]

theorem digitChar_val {n : Nat} (h : n < 10) : (digitChar n).toNat = 48 + n := by
  interval_cases n <;> decide

theorem digitsVal_natStrAux {f n : Nat} (h : n < f) : digitsVal (natStrAux f n) = n := by
  induction f generalizing n with
  | zero => omega
  | succ f ih =>
    rw [natStrAux]
    by_cases hn : n < 10
    · rw [if_pos hn]
      simp [digitsVal, digitChar_val hn]
    · rw [if_neg hn]
      have hd : n / 10 < n := Nat.div_lt_self (by omega) (by omega)
      rw [digitsVal_append_one, ih (by omega), digitChar_val (Nat.mod_lt _ (by omega))]
      omega

theorem natStr_inj {a b : Nat} (h : natStr a = natStr b) : a = b := by
  have hd : natStrAux (a + 1) a = natStrAux (b + 1) b := congrArg String.data h
  have := digitsVal_natStrAux (Nat.lt_succ_self a)
  rw [hd, digitsVal_natStrAux (Nat.lt_succ_self b)] at this
  omega

/-! ## Tokens -/

inductive TokenType where
  | TINT | TIDENT | TNUMBER | TASSIGN | TPLUS | TMINUS | TIF | TEQUAL
  | TLPAREN | TRPAREN | TLBRACE | TRBRACE | TNOTEQ | TSEMI | TUNKNOWN | TEOF
  deriving DecidableEq, Repr

structure Token where
  type : TokenType
  text : String
  deriving DecidableEq, Repr

def eofTok : Token := ⟨.TEOF, ""⟩

/-! ## Lexer of final_cp.cpp (string scan; the state is the unread suffix) -/

def getNextToken (cs : List Char) : Token × List Char :=
  let s := cs.dropWhile isSpaceC
  match s with
  | [] => (eofTok, [])
  | c :: rest =>
    if isAlphaC c then
      let w : String := ⟨(c :: rest).takeWhile isAlnumC⟩
      let r := (c :: rest).dropWhile isAlnumC
      if w = "int" then (⟨.TINT, w⟩, r)
      else if w = "if" then (⟨.TIF, w⟩, r)
      else (⟨.TIDENT, w⟩, r)
    else if isDigitC c then
      (⟨.TNUMBER, ⟨(c :: rest).takeWhile isDigitC⟩⟩, (c :: rest).dropWhile isDigitC)
    else if c = '=' then
      match rest with
      | '=' :: r2 => (⟨.TEQUAL, "=="⟩, r2)
      | _ => (⟨.TASSIGN, "="⟩, rest)
    else if c = '+' then (⟨.TPLUS, "+"⟩, rest)
    else if c = '-' then (⟨.TMINUS, "-"⟩, rest)
    else if c = '(' then (⟨.TLPAREN, "("⟩, rest)
    else if c = ')' then (⟨.TRPAREN, ")"⟩, rest)
    else if c = '\x7b' then (⟨.TLBRACE, "\x7b"⟩, rest)
    else if c = '\x7d' then (⟨.TRBRACE, "\x7d"⟩, rest)
    else if c = ';' then (⟨.TSEMI, ";"⟩, rest)
    else (⟨.TUNKNOWN, ⟨[c]⟩⟩, rest)

/-- Driver loop of Parser::parse: collect tokens, pushing the final EOF too. -/
def tokenizeAux : Nat → List Char → List Token
  | 0, _ => []
  | f+1, cs =>
    let p := getNextToken cs
    if p.1.type = .TEOF then [p.1] else p.1 :: tokenizeAux f p.2

def tokenize (cs : List Char) : List Token := tokenizeAux (cs.length + 1) cs

/-! ## Lexer of parser.cpp (has the missing bang case of final_cp.cpp) -/

def ppGetNextToken (cs : List Char) : Token × List Char :=
  let s := cs.dropWhile isSpaceC
  match s with
  | [] => (eofTok, [])
  | c :: rest =>
    if isAlphaC c then
      let w : String := ⟨(c :: rest).takeWhile isAlnumC⟩
      let r := (c :: rest).dropWhile isAlnumC
      if w = "int" then (⟨.TINT, w⟩, r)
      else if w = "if" then (⟨.TIF, w⟩, r)
      else (⟨.TIDENT, w⟩, r)
    else if isDigitC c then
      (⟨.TNUMBER, ⟨(c :: rest).takeWhile isDigitC⟩⟩, (c :: rest).dropWhile isDigitC)
    else if c = '=' then
      match rest with
      | '=' :: r2 => (⟨.TEQUAL, "=="⟩, r2)
      | _ => (⟨.TASSIGN, "="⟩, rest)
    else if c = '+' then (⟨.TPLUS, "+"⟩, rest)
    else if c = '-' then (⟨.TMINUS, "-"⟩, rest)
    else if c = '!' then
      match rest with
      | '=' :: r2 => (⟨.TNOTEQ, "!="⟩, r2)
      | _ => (⟨.TUNKNOWN, "!"⟩, rest)
    else if c = '\x7b' then (⟨.TLBRACE, "\x7b"⟩, rest)
    else if c = '\x7d' then (⟨.TRBRACE, "\x7d"⟩, rest)
    else if c = '(' then (⟨.TLPAREN, "("⟩, rest)
    else if c = ')' then (⟨.TRPAREN, ")"⟩, rest)
    else if c = ';' then (⟨.TSEMI, ";"⟩, rest)
    else (⟨.TUNKNOWN, ⟨[c]⟩⟩, rest)

/-! ## AST of final_cp.cpp -/

inductive Expr where
  | num (value : Int)
  | ident (name : String)
  | binop (op : String) (left right : Expr)
  deriving DecidableEq, Repr

mutual
inductive Stmt where
  | svar (name : String) (init : Option Expr)
  | sassign (name : String) (e : Expr)
  | sif (cond : Expr) (body : StmtList)
  deriving Repr
inductive StmtList where
  | nil
  | cons (s : Stmt) (rest : StmtList)
  deriving Repr
end

/-! ## Parser of final_cp.cpp

The C++ parser throws runtime_error, which aborts the whole parse; we model
it with Except.  The cursor is the unconsumed token suffix; `peek` past the
end is the EOF token, like the C++ bounds checks.  The functions consume a
fuel argument, decremented at every call, to make the recursion structural;
the C++ recursion always terminates, and every concrete theorem supplies
ample fuel. -/

def peekT (ts : List Token) : Token := ts.headD eofTok

/-- Models `if (!match(ty)) throw runtime_error(msg)` followed by continuing
with the cursor advanced. -/
def expectT (ty : TokenType) (msg : String) (ts : List Token) : Except String (List Token) :=
  if (peekT ts).type = ty then .ok (ts.drop 1) else .error msg

/-- Models std::stoi on a token of decimal digits: the digit value, or the
out_of_range exception when the value does not fit a 32-bit int. -/
def strToNat (s : String) : Nat :=
  s.data.foldl (fun a c => a * 10 + (c.toNat - 48)) 0

def stoiC (s : String) : Except String Int :=
  if strToNat s ≤ 2147483647 then .ok (Int.ofNat (strToNat s)) else .error "stoi"

mutual

def parseExpression : Nat → List Token → Except String (Expr × List Token)
  | 0, _ => .error "fuel"
  | f+1, ts => parseEquality f ts

def parseEquality : Nat → List Token → Except String (Expr × List Token)
  | 0, _ => .error "fuel"
  | f+1, ts => do
    let (l, r) ← parseAdditive f ts
    eqLoop f l r

def eqLoop : Nat → Expr → List Token → Except String (Expr × List Token)
  | 0, _, _ => .error "fuel"
  | f+1, left, ts =>
    if (peekT ts).type = .TEQUAL then do
      let (r, r2) ← parseAdditive f (ts.drop 1)
      eqLoop f (.binop (peekT ts).text left r) r2
    else .ok (left, ts)

def parseAdditive : Nat → List Token → Except String (Expr × List Token)
  | 0, _ => .error "fuel"
  | f+1, ts => do
    let (l, r) ← parsePrimary f ts
    addLoop f l r

def addLoop : Nat → Expr → List Token → Except String (Expr × List Token)
  | 0, _, _ => .error "fuel"
  | f+1, left, ts =>
    if (peekT ts).type = .TPLUS ∨ (peekT ts).type = .TMINUS then do
      let (r, r2) ← parsePrimary f (ts.drop 1)
      addLoop f (.binop (peekT ts).text left r) r2
    else .ok (left, ts)

def parsePrimary : Nat → List Token → Except String (Expr × List Token)
  | 0, _ => .error "fuel"
  | f+1, ts =>
    if (peekT ts).type = .TNUMBER then
      match stoiC (peekT ts).text with
      | .ok v => .ok (.num v, ts.drop 1)
      | .error e => .error e
    else if (peekT ts).type = .TIDENT then .ok (.ident (peekT ts).text, ts.drop 1)
    else if (peekT ts).type = .TLPAREN then do
      let (e, r1) ← parseExpression f (ts.drop 1)
      let r2 ← expectT .TRPAREN "Expected ')'" r1
      .ok (e, r2)
    else .error "Expected expression"

def parseStatement : Nat → List Token → Except String (Stmt × List Token)
  | 0, _ => .error "fuel"
  | f+1, ts =>
    if (peekT ts).type = .TINT then parseVarDeclaration f (ts.drop 1)
    else if (peekT ts).type = .TIF then parseIf f (ts.drop 1)
    else if (peekT ts).type = .TIDENT then parseAssignment f ts
    else .error "Expected statement"

def parseVarDeclaration : Nat → List Token → Except String (Stmt × List Token)
  | 0, _ => .error "fuel"
  | f+1, ts =>
    if (peekT ts).type = .TIDENT then
      if (peekT (ts.drop 1)).type = .TASSIGN then do
        let (e, r1) ← parseExpression f ((ts.drop 1).drop 1)
        let r2 ← expectT .TSEMI "Expected ';'" r1
        .ok (.svar (peekT ts).text (some e), r2)
      else do
        let r1 ← expectT .TSEMI "Expected ';'" (ts.drop 1)
        .ok (.svar (peekT ts).text none, r1)
    else .error "Expected identifier after 'int'"

def parseAssignment : Nat → List Token → Except String (Stmt × List Token)
  | 0, _ => .error "fuel"
  | f+1, ts => do
    let r1 ← expectT .TASSIGN "Expected '='" (ts.drop 1)
    let (e, r2) ← parseExpression f r1
    let r3 ← expectT .TSEMI "Expected ';'" r2
    .ok (.sassign (peekT ts).text e, r3)

def parseIf : Nat → List Token → Except String (Stmt × List Token)
  | 0, _ => .error "fuel"
  | f+1, ts => do
    let r0 ← expectT .TLPAREN "Expected '('" ts
    let (c, r1) ← parseExpression f r0
    let r2 ← expectT .TRPAREN "Expected ')'" r1
    let r3 ← expectT .TLBRACE "Expected '\x7b'" r2
    let (body, r4) ← ifBody f r3
    .ok (.sif c body, r4)

def ifBody : Nat → List Token → Except String (StmtList × List Token)
  | 0, _ => .error "fuel"
  | f+1, ts =>
    if (peekT ts).type = .TRBRACE then .ok (.nil, ts.drop 1)
    else do
      let (s, r1) ← parseStatement f ts
      let (ss, r2) ← ifBody f r1
      .ok (.cons s ss, r2)

def progLoop : Nat → List Token → Except String (StmtList × List Token)
  | 0, _ => .error "fuel"
  | f+1, ts =>
    if (peekT ts).type = .TEOF then .ok (.nil, ts)
    else do
      let (s, r1) ← parseStatement f ts
      let (ss, r2) ← progLoop f r1
      .ok (.cons s ss, r2)

end

/-! ## CodeGenerator of final_cp.cpp

The state holds the two monotonic counters, the variable table (the map
always stores name to name, so a list of declared names suffices), and the
emitted lines in order. -/

structure GenSt where
  registerCount : Nat
  labelCount : Nat
  vars : List String
  assemblyCode : List String
  deriving Repr

def emit (line : String) (σ : GenSt) : GenSt :=
  { σ with assemblyCode := σ.assemblyCode ++ [line] }

def getNewRegister (σ : GenSt) : String × GenSt :=
  ("R" ++ natStr σ.registerCount, { σ with registerCount := σ.registerCount + 1 })

def getNewLabel (σ : GenSt) : String × GenSt :=
  ("L" ++ natStr σ.labelCount, { σ with labelCount := σ.labelCount + 1 })

def declLine (name : String) : String := name ++ ": .word 0"

def declareVariable (name : String) (σ : GenSt) : GenSt :=
  if name ∈ σ.vars then σ
  else emit (declLine name) { σ with vars := σ.vars ++ [name] }

def getVariableLocation (name : String) (σ : GenSt) : String × GenSt :=
  (name, declareVariable name σ)

def genExpr : Expr → GenSt → String × GenSt
  | .num v, σ =>
    let p := getNewRegister σ
    (p.1, emit ("MOV " ++ p.1 ++ ", #" ++ intStr v) p.2)
  | .ident name, σ =>
    let p := getNewRegister σ
    let q := getVariableLocation name p.2
    (p.1, emit ("LDR " ++ p.1 ++ ", [" ++ q.1 ++ "]") q.2)
  | .binop op l r, σ =>
    let a := genExpr l σ
    let b := genExpr r a.2
    let p := getNewRegister b.2
    if op = "+" then (p.1, emit ("ADD " ++ p.1 ++ ", " ++ a.1 ++ ", " ++ b.1) p.2)
    else if op = "-" then (p.1, emit ("SUB " ++ p.1 ++ ", " ++ a.1 ++ ", " ++ b.1) p.2)
    else if op = "==" then
      (p.1, emit ("MOVEQ " ++ p.1 ++ ", #1")
              (emit ("MOV " ++ p.1 ++ ", #0")
                (emit ("CMP " ++ a.1 ++ ", " ++ b.1) p.2)))
    else (p.1, p.2)

mutual

def genStmt : Stmt → GenSt → GenSt
  | .svar name init, σ =>
    let σ1 := declareVariable name σ
    match init with
    | none => σ1
    | some e =>
      let p := genExpr e σ1
      let q := getVariableLocation name p.2
      emit ("STR " ++ p.1 ++ ", [" ++ q.1 ++ "]") q.2
  | .sassign name e, σ =>
    let p := genExpr e σ
    let q := getVariableLocation name p.2
    emit ("STR " ++ p.1 ++ ", [" ++ q.1 ++ "]") q.2
  | .sif cond body, σ =>
    let p := genExpr cond σ
    let q := getNewLabel p.2
    let σ1 := emit ("BNE " ++ q.1) (emit ("CMP " ++ p.1 ++ ", #1") q.2)
    let σ2 := genStmts body σ1
    emit (q.1 ++ ":") σ2

def genStmts : StmtList → GenSt → GenSt
  | .nil, σ => σ
  | .cons s rest, σ => genStmts rest (genStmt s σ)

end

def initialState : GenSt := ⟨0, 0, [], []⟩

/-- The emission order of main: prelude, postlude, the tree walk, epilogue. -/
def compileProgram (prog : StmtList) : List String :=
  let σ0 := emit "_start:" (emit ".global _start" (emit ".section .text" (emit ".section .data" initialState)))
  let σ1 := genStmts prog σ0
  (emit "SWI 0" (emit "MOV R0, #0" (emit "MOV R7, #1" σ1))).assemblyCode

/-- The whole pipeline of main: tokenize, parse, generate; an error means the
process aborts and no output.s is written. -/
def compileC (input : String) : Except String (List String) :=
  let toks := tokenize input.data
  match progLoop ((toks.length + 4) * 8) toks with
  | .error e => .error e
  | .ok (ss, _) => .ok (compileProgram ss)

/-! ## Lexer lemmas: the scan always terminates in a single EOF token -/

theorem dropWhile_len (p : Char → Bool) : ∀ (l : List Char), (l.dropWhile p).length ≤ l.length := by
  intro l
  induction l with
  | nil => simp
  | cons c cs ih =>
    rw [List.dropWhile_cons]
    split
    · simp; omega
    · simp

theorem getNextToken_eof {cs : List Char} {t : Token} {r : List Char}
    (h : getNextToken cs = (t, r)) (ht : t.type = .TEOF) : t = eofTok ∧ r = [] := by
  cases hdw : cs.dropWhile isSpaceC with
  | nil =>
    simp only [getNextToken, hdw] at h
    injection h with h1 h2
    exact ⟨h1.symm, h2.symm⟩
  | cons c rest =>
    simp only [getNextToken, hdw] at h
    repeat' split at h
    all_goals (injection h with h1 h2; rw [← h1] at ht; simp at ht)

set_option maxHeartbeats 1000000 in
theorem getNextToken_progress {cs : List Char} {t : Token} {r : List Char}
    (h : getNextToken cs = (t, r)) (ht : t.type ≠ .TEOF) : r.length < cs.length := by
  have hle : (cs.dropWhile isSpaceC).length ≤ cs.length := dropWhile_len isSpaceC cs
  cases hdw : cs.dropWhile isSpaceC with
  | nil =>
    simp only [getNextToken, hdw] at h
    injection h with h1 h2
    exact absurd (by rw [← h1]; rfl) ht
  | cons c rest =>
    rw [hdw] at hle
    simp only [List.length_cons] at hle
    simp only [getNextToken, hdw] at h
    repeat' split at h
    all_goals injection h with h1 h2
    all_goals subst h2
    · rename_i ha _
      have : ((c :: rest).dropWhile isAlnumC).length ≤ rest.length := by
        rw [List.dropWhile_cons_of_pos (by simp [isAlnumC, ha])]
        exact dropWhile_len isAlnumC rest
      omega
    · rename_i ha _ _
      have : ((c :: rest).dropWhile isAlnumC).length ≤ rest.length := by
        rw [List.dropWhile_cons_of_pos (by simp [isAlnumC, ha])]
        exact dropWhile_len isAlnumC rest
      omega
    · rename_i ha _ _
      have : ((c :: rest).dropWhile isAlnumC).length ≤ rest.length := by
        rw [List.dropWhile_cons_of_pos (by simp [isAlnumC, ha])]
        exact dropWhile_len isAlnumC rest
      omega
    · rename_i hd
      have : ((c :: rest).dropWhile isDigitC).length ≤ rest.length := by
        rw [List.dropWhile_cons_of_pos (by assumption)]
        exact dropWhile_len isDigitC rest
      omega
    all_goals try omega
    all_goals simp only [List.length_cons] at hle
    all_goals omega

theorem tokenizeAux_split :
    ∀ (f : Nat) (cs : List Char), cs.length < f →
      ∃ body, tokenizeAux f cs = body ++ [eofTok] ∧ ∀ t ∈ body, t.type ≠ .TEOF := by
  intro f
  induction f with
  | zero => intro cs h; omega
  | succ f ih =>
    intro cs hf
    rcases hp : getNextToken cs with ⟨t, r⟩
    rw [tokenizeAux, hp]
    by_cases ht : t.type = .TEOF
    · rw [if_pos ht]
      obtain ⟨h1, _⟩ := getNextToken_eof hp ht
      exact ⟨[], by simp [h1]⟩
    · rw [if_neg ht]
      have hr : r.length < cs.length := getNextToken_progress hp ht
      obtain ⟨body, hb, hbt⟩ := ih r (by omega)
      refine ⟨t :: body, by simp [hb], ?_⟩
      intro u hu
      rcases List.mem_cons.mp hu with h1 | h1
      · rw [h1]; exact ht
      · exact hbt u h1

theorem tokenize_split (cs : List Char) :
    ∃ body, tokenize cs = body ++ [eofTok] ∧ ∀ t ∈ body, t.type ≠ .TEOF :=
  tokenizeAux_split (cs.length + 1) cs (Nat.lt_succ_self _)

/-! ## Parser lemmas: a successful parse consumed a prefix of the tokens in
which every Number token passed the stoi range check -/

def tokOK (t : Token) : Prop := t.type = .TNUMBER → strToNat t.text ≤ 2147483647

def consumedOK (ts rest : List Token) : Prop :=
  ∃ pre, ts = pre ++ rest ∧ ∀ t ∈ pre, tokOK t

theorem tokOK_of_ne {t : Token} (h : t.type ≠ .TNUMBER) : tokOK t :=
  fun htt => absurd htt h

theorem consumedOK_refl (ts : List Token) : consumedOK ts ts :=
  ⟨[], rfl, by simp⟩

theorem consumedOK_trans {a b c : List Token}
    (h1 : consumedOK a b) (h2 : consumedOK b c) : consumedOK a c := by
  obtain ⟨p1, e1, k1⟩ := h1
  obtain ⟨p2, e2, k2⟩ := h2
  refine ⟨p1 ++ p2, by rw [e1, e2, List.append_assoc], ?_⟩
  intro t ht
  rcases List.mem_append.mp ht with h | h
  · exact k1 t h
  · exact k2 t h

theorem consumedOK_cons {t : Token} {ts r : List Token}
    (h1 : tokOK t) (h2 : consumedOK ts r) : consumedOK (t :: ts) r := by
  obtain ⟨pre, e, k⟩ := h2
  refine ⟨t :: pre, by rw [e]; rfl, ?_⟩
  intro u hu
  rcases List.mem_cons.mp hu with h | h
  · rw [h]; exact h1
  · exact k u h

theorem consumedOK_dropOne {ts : List Token} (h : (peekT ts).type ≠ .TNUMBER) :
    consumedOK ts (ts.drop 1) := by
  cases ts with
  | nil => exact consumedOK_refl []
  | cons t rest =>
    exact consumedOK_cons (tokOK_of_ne (by simpa [peekT] using h)) (consumedOK_refl rest)

theorem expectT_consumed {ty : TokenType} {msg : String} {ts r : List Token}
    (hty : ty ≠ .TNUMBER) (h : expectT ty msg ts = .ok r) : consumedOK ts r := by
  unfold expectT at h
  split at h
  · rename_i hp
    injection h with h1
    subst h1
    exact consumedOK_dropOne (by rw [hp]; exact hty)
  · exact absurd h (by simp)

theorem seq_ok {α β : Type} {x : Except String α} {g : α → Except String β} {p : β}
    (h : (x >>= g) = .ok p) : ∃ a, x = .ok a ∧ g a = .ok p := by
  cases x with
  | error e =>
    rw [show ((Except.error e : Except String α) >>= g) = Except.error e from rfl] at h
    exact absurd h (by simp)
  | ok a =>
    refine ⟨a, rfl, ?_⟩
    rw [show ((Except.ok a : Except String α) >>= g) = g a from rfl] at h
    exact h

theorem stoiC_ok_le {s : String} {v : Int} (h : stoiC s = .ok v) :
    strToNat s ≤ 2147483647 := by
  unfold stoiC at h
  split at h
  · assumption
  · exact absurd h (by simp)

theorem parse_ok_consumed : ∀ f : Nat,
    (∀ ts p, parseExpression f ts = .ok p → consumedOK ts p.2) ∧
    (∀ ts p, parseEquality f ts = .ok p → consumedOK ts p.2) ∧
    (∀ l ts p, eqLoop f l ts = .ok p → consumedOK ts p.2) ∧
    (∀ ts p, parseAdditive f ts = .ok p → consumedOK ts p.2) ∧
    (∀ l ts p, addLoop f l ts = .ok p → consumedOK ts p.2) ∧
    (∀ ts p, parsePrimary f ts = .ok p → consumedOK ts p.2) ∧
    (∀ ts p, parseStatement f ts = .ok p → consumedOK ts p.2) ∧
    (∀ ts p, parseVarDeclaration f ts = .ok p → consumedOK ts p.2) ∧
    (∀ ts p, (peekT ts).type = .TIDENT → parseAssignment f ts = .ok p → consumedOK ts p.2) ∧
    (∀ ts p, parseIf f ts = .ok p → consumedOK ts p.2) ∧
    (∀ ts p, ifBody f ts = .ok p → consumedOK ts p.2) ∧
    (∀ ts p, progLoop f ts = .ok p → consumedOK ts p.2 ∧ (peekT p.2).type = .TEOF) := by
  intro f
  induction f with
  | zero =>
    refine ⟨fun ts p h => ?_, fun ts p h => ?_, fun l ts p h => ?_, fun ts p h => ?_,
      fun l ts p h => ?_, fun ts p h => ?_, fun ts p h => ?_, fun ts p h => ?_,
      fun ts p hg h => ?_, fun ts p h => ?_, fun ts p h => ?_, fun ts p h => ?_⟩ <;>
      simp [parseExpression, parseEquality, eqLoop, parseAdditive, addLoop, parsePrimary,
        parseStatement, parseVarDeclaration, parseAssignment, parseIf, ifBody, progLoop] at h
  | succ f ih =>
    obtain ⟨ihE, ihQ, ihQL, ihA, ihAL, ihP, ihS, ihV, ihG, ihI, ihB, ihL⟩ := ih
    refine ⟨?_, ?_, ?_, ?_, ?_, ?_, ?_, ?_, ?_, ?_, ?_, ?_⟩
    · -- parseExpression
      intro ts p h
      rw [parseExpression] at h
      exact ihQ ts p h
    · -- parseEquality
      intro ts p h
      rw [parseEquality] at h
      obtain ⟨⟨l, r⟩, h1, h2⟩ := seq_ok h
      exact consumedOK_trans (ihA ts (l, r) h1) (ihQL l r p h2)
    · -- eqLoop
      intro l ts p h
      rw [eqLoop] at h
      split at h
      · rename_i heq
        obtain ⟨⟨rr, r2⟩, h1, h2⟩ := seq_ok h
        refine consumedOK_trans (consumedOK_dropOne (by rw [heq]; simp)) ?_
        exact consumedOK_trans (ihA _ (rr, r2) h1) (ihQL _ r2 p h2)
      · injection h with h1
        rw [← h1]
        exact consumedOK_refl ts
    · -- parseAdditive
      intro ts p h
      rw [parseAdditive] at h
      obtain ⟨⟨l, r⟩, h1, h2⟩ := seq_ok h
      exact consumedOK_trans (ihP ts (l, r) h1) (ihAL l r p h2)
    · -- addLoop
      intro l ts p h
      rw [addLoop] at h
      split at h
      · rename_i hpm
        obtain ⟨⟨rr, r2⟩, h1, h2⟩ := seq_ok h
        refine consumedOK_trans (consumedOK_dropOne ?_) ?_
        · rcases hpm with hp | hp <;> rw [hp] <;> simp
        · exact consumedOK_trans (ihP _ (rr, r2) h1) (ihAL _ r2 p h2)
      · injection h with h1
        rw [← h1]
        exact consumedOK_refl ts
    · -- parsePrimary
      intro ts p h
      rw [parsePrimary] at h
      split at h
      · rename_i hn
        cases hst : stoiC (peekT ts).text with
        | ok v =>
          rw [hst] at h
          injection h with h1
          rw [← h1]
          cases ts with
          | nil => exact consumedOK_refl _
          | cons t rest =>
            have hst' : stoiC t.text = Except.ok v := by simpa [peekT] using hst
            exact consumedOK_cons (fun _ => stoiC_ok_le hst') (consumedOK_refl rest)
        | error e =>
          rw [hst] at h
          exact absurd h (by simp)
      · split at h
        · rename_i hi
          injection h with h1
          rw [← h1]
          exact consumedOK_dropOne (by rw [hi]; simp)
        · split at h
          · rename_i hl
            obtain ⟨⟨e, r1⟩, h1, h2⟩ := seq_ok h
            obtain ⟨r2, h3, h4⟩ := seq_ok h2
            injection h4 with h5
            rw [← h5]
            refine consumedOK_trans (consumedOK_dropOne (by rw [hl]; simp)) ?_
            exact consumedOK_trans (ihE _ (e, r1) h1) (expectT_consumed (by simp) h3)
          · exact absurd h (by simp)
    · -- parseStatement
      intro ts p h
      rw [parseStatement] at h
      split at h
      · rename_i hint
        exact consumedOK_trans (consumedOK_dropOne (by rw [hint]; simp)) (ihV _ p h)
      · split at h
        · rename_i hif
          exact consumedOK_trans (consumedOK_dropOne (by rw [hif]; simp)) (ihI _ p h)
        · split at h
          · rename_i hident
            exact ihG ts p hident h
          · exact absurd h (by simp)
    · -- parseVarDeclaration
      intro ts p h
      rw [parseVarDeclaration] at h
      split at h
      · rename_i hident
        split at h
        · rename_i hassign
          obtain ⟨⟨e, r1⟩, h1, h2⟩ := seq_ok h
          obtain ⟨r2, h3, h4⟩ := seq_ok h2
          injection h4 with h5
          rw [← h5]
          refine consumedOK_trans (consumedOK_dropOne (by rw [hident]; simp)) ?_
          refine consumedOK_trans (consumedOK_dropOne (by rw [hassign]; simp)) ?_
          exact consumedOK_trans (ihE _ (e, r1) h1) (expectT_consumed (by simp) h3)
        · obtain ⟨r1, h1, h2⟩ := seq_ok h
          injection h2 with h3
          rw [← h3]
          refine consumedOK_trans (consumedOK_dropOne (by rw [hident]; simp)) ?_
          exact expectT_consumed (by simp) h1
      · exact absurd h (by simp)
    · -- parseAssignment
      intro ts p hg h
      rw [parseAssignment] at h
      obtain ⟨r1, h1, h2⟩ := seq_ok h
      obtain ⟨⟨e, r2⟩, h3, h4⟩ := seq_ok h2
      obtain ⟨r3, h5, h6⟩ := seq_ok h4
      injection h6 with h7
      rw [← h7]
      refine consumedOK_trans (consumedOK_dropOne (by rw [hg]; simp)) ?_
      refine consumedOK_trans (expectT_consumed (by simp) h1) ?_
      exact consumedOK_trans (ihE _ (e, r2) h3) (expectT_consumed (by simp) h5)
    · -- parseIf
      intro ts p h
      rw [parseIf] at h
      obtain ⟨r0, h1, h2⟩ := seq_ok h
      obtain ⟨⟨c, r1⟩, h3, h4⟩ := seq_ok h2
      obtain ⟨r2, h5, h6⟩ := seq_ok h4
      obtain ⟨r3, h7, h8⟩ := seq_ok h6
      obtain ⟨⟨body, r4⟩, h9, h10⟩ := seq_ok h8
      injection h10 with h11
      rw [← h11]
      refine consumedOK_trans (expectT_consumed (by simp) h1) ?_
      refine consumedOK_trans (ihE _ (c, r1) h3) ?_
      refine consumedOK_trans (expectT_consumed (by simp) h5) ?_
      refine consumedOK_trans (expectT_consumed (by simp) h7) ?_
      exact ihB _ (body, r4) h9
    · -- ifBody
      intro ts p h
      rw [ifBody] at h
      split at h
      · rename_i hrb
        injection h with h1
        rw [← h1]
        exact consumedOK_dropOne (by rw [hrb]; simp)
      · obtain ⟨⟨s, r1⟩, h1, h2⟩ := seq_ok h
        obtain ⟨⟨ss, r2⟩, h3, h4⟩ := seq_ok h2
        injection h4 with h5
        rw [← h5]
        exact consumedOK_trans (ihS ts (s, r1) h1) (ihB r1 (ss, r2) h3)
    · -- progLoop
      intro ts p h
      rw [progLoop] at h
      split at h
      · rename_i heof
        injection h with h1
        rw [← h1]
        exact ⟨consumedOK_refl ts, heof⟩
      · obtain ⟨⟨s, r1⟩, h1, h2⟩ := seq_ok h
        obtain ⟨⟨ss, r2⟩, h3, h4⟩ := seq_ok h2
        injection h4 with h5
        rw [← h5]
        obtain ⟨hc, he⟩ := ihL r1 (ss, r2) h3
        exact ⟨consumedOK_trans (ihS ts (s, r1) h1) hc, he⟩

/-- When the whole program loop succeeds on a lexed token list, every Number
token of that list passed the stoi range check: the loop consumes everything
up to the final EOF token, and a consumed Number token went through stoi. -/
theorem progLoop_ok_numbers {cs : List Char} {f : Nat} {p : StmtList × List Token}
    (h : progLoop f (tokenize cs) = .ok p) : ∀ t ∈ tokenize cs, tokOK t := by
  obtain ⟨hc, he⟩ := (parse_ok_consumed f).2.2.2.2.2.2.2.2.2.2.2 (tokenize cs) p h
  obtain ⟨pre, hsplit, hok⟩ := hc
  obtain ⟨body, hb, hbt⟩ := tokenize_split cs
  intro t0 ht0
  rw [hsplit] at ht0
  rcases List.mem_append.mp ht0 with hx | hx
  · exact hok t0 hx
  · cases hrest : p.2 with
    | nil =>
      rw [hrest] at hx
      simp at hx
    | cons r rr =>
      rw [hrest] at he hsplit hx
      have hr : r.type = .TEOF := by simpa [peekT] using he
      have heq2 : pre ++ r :: rr = body ++ [eofTok] := hsplit.symm.trans hb
      have hlen : pre.length + (rr.length + 1) = body.length + 1 := by
        have := congrArg List.length heq2
        simpa using this
      by_cases hlt : pre.length < body.length
      · have h1 : (pre ++ r :: rr)[pre.length]? = some r := by
          rw [List.getElem?_append_right (le_refl _)]
          simp
        rw [heq2, List.getElem?_append_left hlt] at h1
        exact absurd hr (hbt r (List.getElem?_mem h1))
      · have hrr : rr = [] := by
          have : rr.length = 0 := by omega
          exact List.length_eq_zero.mp this
        subst hrr
        have h1 : (pre ++ [r])[pre.length]? = some r := by
          rw [List.getElem?_append_right (le_refl _)]
          simp
        rw [heq2] at h1
        rw [List.getElem?_append_right (by omega), show pre.length - body.length = 0 by omega] at h1
        simp at h1
        have ht : t0 = r := by simpa using hx
        rw [ht, ← h1]
        exact tokOK_of_ne (by simp [eofTok])

/-! ## CodeGenerator lemmas: line shapes, register and label discipline -/

def noW (s : String) : Prop := ∀ c ∈ s.data, c ≠ 'w'

theorem noW_of_not_mem {s : String} (h : 'w' ∉ s.data) : noW s :=
  fun _ hc hw => h (hw ▸ hc)

theorem noW_append {a b : String} (ha : noW a) (hb : noW b) : noW (a ++ b) := by
  intro c hc
  rcases List.mem_append.mp hc with h | h
  · exact ha c h
  · exact hb c h

theorem noW_natStr (n : Nat) : noW (natStr n) := by
  intro c hc
  have hc' : c ∈ natStrAux (n + 1) n := hc
  have hd := natStrAux_digits hc'
  intro hw
  rw [hw] at hd
  revert hd
  decide

theorem noW_intStr (v : Int) : noW (intStr v) := by
  unfold intStr
  split
  · exact noW_append (noW_of_not_mem (by decide)) (noW_natStr _)
  · exact noW_natStr _

theorem w_mem_declLine (name : String) : 'w' ∈ (declLine name).data := by
  have : (declLine name).data = name.data ++ (": .word 0").data := rfl
  rw [this]
  exact List.mem_append.mpr (Or.inr (by decide))

theorem ne_declLine_of_noW {s : String} (h : noW s) (name : String) : s ≠ declLine name := by
  intro he
  exact h 'w' (he ▸ w_mem_declLine name) rfl

theorem declLine_last (name : String) : (declLine name).data.getLast? = some '0' := by
  have : (declLine name).data = (name.data ++ [':', ' ', '.', 'w', 'o', 'r', 'd', ' ']) ++ ['0'] := by
    show name.data ++ (": .word 0").data = _
    rw [List.append_assoc]
    rfl
  rw [this]
  exact List.getLast?_concat _

theorem ne_declLine_of_bracket {s : String} (h : s.data.getLast? = some ']') (name : String) :
    s ≠ declLine name := by
  intro he
  rw [he, declLine_last] at h
  simp at h

theorem bracket_last (x : String) : (x ++ "]").data.getLast? = some ']' := by
  have : (x ++ "]").data = x.data ++ [']'] := rfl
  rw [this]
  exact List.getLast?_concat _

theorem declLine_inj {a b : String} (h : declLine a = declLine b) : a = b := by
  have hd : a.data ++ (": .word 0").data = b.data ++ (": .word 0").data := congrArg String.data h
  exact String.ext (List.append_cancel_right hd)

@[simp] theorem emit_rc (l : String) (σ : GenSt) : (emit l σ).registerCount = σ.registerCount := rfl
@[simp] theorem emit_lab (l : String) (σ : GenSt) : (emit l σ).labelCount = σ.labelCount := rfl
@[simp] theorem emit_vars (l : String) (σ : GenSt) : (emit l σ).vars = σ.vars := rfl
@[simp] theorem emit_out (l : String) (σ : GenSt) :
    (emit l σ).assemblyCode = σ.assemblyCode ++ [l] := rfl

@[simp] theorem newReg_fst (σ : GenSt) : (getNewRegister σ).1 = "R" ++ natStr σ.registerCount := rfl
@[simp] theorem newReg_rc (σ : GenSt) :
    (getNewRegister σ).2.registerCount = σ.registerCount + 1 := rfl
@[simp] theorem newReg_lab (σ : GenSt) : (getNewRegister σ).2.labelCount = σ.labelCount := rfl
@[simp] theorem newReg_vars (σ : GenSt) : (getNewRegister σ).2.vars = σ.vars := rfl
@[simp] theorem newReg_out (σ : GenSt) :
    (getNewRegister σ).2.assemblyCode = σ.assemblyCode := rfl

@[simp] theorem newLabel_fst (σ : GenSt) : (getNewLabel σ).1 = "L" ++ natStr σ.labelCount := rfl
@[simp] theorem newLabel_rc (σ : GenSt) : (getNewLabel σ).2.registerCount = σ.registerCount := rfl
@[simp] theorem newLabel_lab (σ : GenSt) : (getNewLabel σ).2.labelCount = σ.labelCount + 1 := rfl
@[simp] theorem newLabel_vars (σ : GenSt) : (getNewLabel σ).2.vars = σ.vars := rfl
@[simp] theorem newLabel_out (σ : GenSt) :
    (getNewLabel σ).2.assemblyCode = σ.assemblyCode := rfl

@[simp] theorem declare_rc (n : String) (σ : GenSt) :
    (declareVariable n σ).registerCount = σ.registerCount := by
  unfold declareVariable
  split <;> rfl

@[simp] theorem declare_lab (n : String) (σ : GenSt) :
    (declareVariable n σ).labelCount = σ.labelCount := by
  unfold declareVariable
  split <;> rfl

@[simp] theorem varLoc_fst (n : String) (σ : GenSt) : (getVariableLocation n σ).1 = n := rfl
@[simp] theorem varLoc_snd (n : String) (σ : GenSt) :
    (getVariableLocation n σ).2 = declareVariable n σ := rfl

/-- The output buffer only ever grows by appending lines at the end. -/
def outGrows (σ σ' : GenSt) : Prop := ∃ added, σ'.assemblyCode = σ.assemblyCode ++ added

theorem outGrows_refl (σ : GenSt) : outGrows σ σ := ⟨[], by simp⟩

theorem outGrows_trans {a b c : GenSt} (h1 : outGrows a b) (h2 : outGrows b c) : outGrows a c := by
  obtain ⟨x, hx⟩ := h1
  obtain ⟨y, hy⟩ := h2
  exact ⟨x ++ y, by rw [hy, hx, List.append_assoc]⟩

theorem outGrows_emit (l : String) (σ : GenSt) : outGrows σ (emit l σ) := ⟨[l], rfl⟩

theorem outGrows_of_eq {σ σ' : GenSt} (h : σ'.assemblyCode = σ.assemblyCode) : outGrows σ σ' :=
  ⟨[], by simp [h]⟩

theorem outGrows_declare (n : String) (σ : GenSt) : outGrows σ (declareVariable n σ) := by
  unfold declareVariable
  split
  · exact outGrows_refl σ
  · exact ⟨[declLine n], rfl⟩

theorem outGrows_mem {σ σ' : GenSt} (h : outGrows σ σ') {x : String}
    (hx : x ∈ σ.assemblyCode) : x ∈ σ'.assemblyCode := by
  obtain ⟨added, ha⟩ := h
  rw [ha]
  exact List.mem_append.mpr (Or.inl hx)

theorem genExpr_rc : ∀ (e : Expr) (σ : GenSt),
    σ.registerCount < (genExpr e σ).2.registerCount := by
  intro e
  induction e with
  | num v => intro σ; simp [genExpr]
  | ident name => intro σ; simp [genExpr]
  | binop op l r ihl ihr =>
    intro σ
    have h1 := ihl σ
    have h2 := ihr (genExpr l σ).2
    unfold genExpr
    split
    · simp; omega
    · split
      · simp; omega
      · split
        · simp; omega
        · simp; omega

theorem genExpr_ret : ∀ (e : Expr) (σ : GenSt),
    (genExpr e σ).1 = "R" ++ natStr ((genExpr e σ).2.registerCount - 1) := by
  intro e
  induction e with
  | num v => intro σ; simp [genExpr]
  | ident name => intro σ; simp [genExpr]
  | binop op l r ihl ihr =>
    intro σ
    unfold genExpr
    split
    · simp
    · split
      · simp
      · split
        · simp
        · simp

theorem genExpr_lab : ∀ (e : Expr) (σ : GenSt),
    (genExpr e σ).2.labelCount = σ.labelCount := by
  intro e
  induction e with
  | num v => intro σ; simp [genExpr]
  | ident name => intro σ; simp [genExpr]
  | binop op l r ihl ihr =>
    intro σ
    have h1 := ihl σ
    have h2 := ihr (genExpr l σ).2
    unfold genExpr
    split
    · simp [h1, h2]
    · split
      · simp [h1, h2]
      · split
        · simp [h1, h2]
        · simp [h1, h2]

theorem genExpr_out : ∀ (e : Expr) (σ : GenSt), outGrows σ (genExpr e σ).2 := by
  intro e
  induction e with
  | num v =>
    intro σ
    exact outGrows_trans (outGrows_of_eq (newReg_out σ)) (outGrows_emit _ _)
  | ident name =>
    intro σ
    exact outGrows_trans
      (outGrows_trans (outGrows_of_eq (newReg_out σ)) (outGrows_declare name _))
      (outGrows_emit _ _)
  | binop op l r ihl ihr =>
    intro σ
    have h1 := ihl σ
    have h2 := ihr (genExpr l σ).2
    have h12 : outGrows σ (genExpr r (genExpr l σ).2).2 := outGrows_trans h1 h2
    have h3 : outGrows σ (getNewRegister (genExpr r (genExpr l σ).2).2).2 :=
      outGrows_trans h12 (outGrows_of_eq (newReg_out _))
    unfold genExpr
    split
    · exact outGrows_trans h3 (outGrows_emit _ _)
    · split
      · exact outGrows_trans h3 (outGrows_emit _ _)
      · split
        · exact outGrows_trans h3
            (outGrows_trans (outGrows_emit _ _)
              (outGrows_trans (outGrows_emit _ _) (outGrows_emit _ _)))
        · exact h3

mutual

theorem genStmt_lab : ∀ (s : Stmt) (σ : GenSt), σ.labelCount ≤ (genStmt s σ).labelCount
  | .svar name init, σ => by
    cases init with
    | none => simp [genStmt]
    | some e => simp [genStmt, genExpr_lab]
  | .sassign name e, σ => by simp [genStmt, genExpr_lab]
  | .sif c body, σ => by
    simp only [genStmt, emit_lab]
    refine le_trans ?_ (genStmts_lab body _)
    simp [genExpr_lab]

theorem genStmts_lab : ∀ (l : StmtList) (σ : GenSt), σ.labelCount ≤ (genStmts l σ).labelCount
  | .nil, σ => le_refl _
  | .cons s rest, σ => le_trans (genStmt_lab s σ) (genStmts_lab rest _)

end

mutual

theorem genStmt_out : ∀ (s : Stmt) (σ : GenSt), outGrows σ (genStmt s σ)
  | .svar name init, σ => by
    cases init with
    | none => exact outGrows_declare name σ
    | some e =>
      exact outGrows_trans (outGrows_declare name σ)
        (outGrows_trans (genExpr_out e _)
          (outGrows_trans (outGrows_declare name _) (outGrows_emit _ _)))
  | .sassign name e, σ =>
    outGrows_trans (genExpr_out e σ)
      (outGrows_trans (outGrows_declare name _) (outGrows_emit _ _))
  | .sif c body, σ => by
    have h : outGrows σ (emit ("BNE " ++ (getNewLabel (genExpr c σ).2).1)
        (emit ("CMP " ++ (genExpr c σ).1 ++ ", #1") (getNewLabel (genExpr c σ).2).2)) :=
      outGrows_trans (genExpr_out c σ)
        (outGrows_trans (outGrows_of_eq (newLabel_out _))
          (outGrows_trans (outGrows_emit _ _) (outGrows_emit _ _)))
    simp only [genStmt]
    exact outGrows_trans h (outGrows_trans (genStmts_out body _) (outGrows_emit _ _))

theorem genStmts_out : ∀ (l : StmtList) (σ : GenSt), outGrows σ (genStmts l σ)
  | .nil, σ => outGrows_refl σ
  | .cons s rest, σ => outGrows_trans (genStmt_out s σ) (genStmts_out rest _)

end

theorem genStmt_sif_lab (c : Expr) (body : StmtList) (σ : GenSt) :
    σ.labelCount < (genStmt (.sif c body) σ).labelCount := by
  simp only [genStmt, emit_lab]
  refine lt_of_lt_of_le ?_ (genStmts_lab body _)
  simp [genExpr_lab]

/-- The skip label the If statement allocates is built from the label counter
at its entry (the condition allocates no labels), and its branch instruction
is in the emitted output. -/
theorem sif_BNE_mem (c : Expr) (body : StmtList) (σ : GenSt) :
    ("BNE " ++ ("L" ++ natStr σ.labelCount)) ∈ (genStmt (.sif c body) σ).assemblyCode := by
  have hm : ("BNE " ++ ("L" ++ natStr σ.labelCount)) ∈
      (emit ("BNE " ++ (getNewLabel (genExpr c σ).2).1)
        (emit ("CMP " ++ (genExpr c σ).1 ++ ", #1")
          (getNewLabel (genExpr c σ).2).2)).assemblyCode := by
    simp [genExpr_lab]
  exact outGrows_mem (outGrows_trans (genStmts_out body _) (outGrows_emit _ _)) hm

/-! ## Data-slot counting: each variable gets exactly one declaration line -/

def mentionsE : Expr → String → Bool
  | .num _, _ => false
  | .ident n, name => n == name
  | .binop _ l r, name => mentionsE l name || mentionsE r name

mutual

def mentionsS : Stmt → String → Bool
  | .svar n init, name =>
    n == name || (match init with | none => false | some e => mentionsE e name)
  | .sassign n e, name => n == name || mentionsE e name
  | .sif c body, name => mentionsE c name || mentionsL body name

def mentionsL : StmtList → String → Bool
  | .nil, _ => false
  | .cons s rest, name => mentionsS s name || mentionsL rest name

end

def Inv (name : String) (σ : GenSt) : Prop :=
  σ.assemblyCode.count (declLine name) = if name ∈ σ.vars then 1 else 0

theorem noW_reg (n : Nat) : noW ("R" ++ natStr n) :=
  noW_append (noW_of_not_mem (by decide)) (noW_natStr n)

theorem noW_labelStr (n : Nat) : noW ("L" ++ natStr n) :=
  noW_append (noW_of_not_mem (by decide)) (noW_natStr n)

theorem Inv_emit {name line : String} {σ : GenSt} (hne : line ≠ declLine name)
    (h : Inv name σ) : Inv name (emit line σ) := by
  unfold Inv at *
  simp only [emit_out, emit_vars]
  have h0 : [line].count (declLine name) = 0 := by
    simp [List.count_cons, hne]
  rw [List.count_append, h0, Nat.add_zero]
  exact h

theorem Inv_newReg {name : String} {σ : GenSt} (h : Inv name σ) :
    Inv name (getNewRegister σ).2 := by
  unfold Inv at *
  simpa using h

theorem Inv_newLabel {name : String} {σ : GenSt} (h : Inv name σ) :
    Inv name (getNewLabel σ).2 := by
  unfold Inv at *
  simpa using h

theorem Inv_declare {name n : String} {σ : GenSt} (h : Inv name σ) :
    Inv name (declareVariable n σ) := by
  unfold declareVariable
  split
  · exact h
  · rename_i hn
    unfold Inv at *
    simp only [emit_out, emit_vars]
    rw [List.count_append]
    by_cases he : n = name
    · subst he
      rw [if_neg hn] at h
      have h1 : [declLine n].count (declLine n) = 1 := by simp
      rw [h1, h, if_pos (by simp)]
    · have h1 : [declLine n].count (declLine name) = 0 := by
        simp only [List.count_cons, List.count_nil, Nat.zero_add]
        rw [if_neg]
        intro hc
        exact he (declLine_inj (by simpa using hc))
      have hiff : (name ∈ σ.vars ++ [n]) ↔ name ∈ σ.vars := by
        simp only [List.mem_append, List.mem_singleton]
        constructor
        · rintro (hx | hx)
          · exact hx
          · exact absurd hx.symm he
        · exact Or.inl
      rw [h1, Nat.add_zero, h, if_congr hiff rfl rfl]

theorem Inv_genExpr {name : String} : ∀ (e : Expr) (σ : GenSt),
    Inv name σ → Inv name (genExpr e σ).2 := by
  intro e
  induction e with
  | num v =>
    intro σ h
    refine Inv_emit (ne_declLine_of_noW ?_ name) (Inv_newReg h)
    rw [newReg_fst]
    exact noW_append (noW_append (noW_append (noW_of_not_mem (by decide)) (noW_reg _))
      (noW_of_not_mem (by decide))) (noW_intStr v)
  | ident nm =>
    intro σ h
    exact Inv_emit (ne_declLine_of_bracket (bracket_last _) name)
      (Inv_declare (Inv_newReg h))
  | binop op l r ihl ihr =>
    intro σ h
    have h3 : Inv name (getNewRegister (genExpr r (genExpr l σ).2).2).2 :=
      Inv_newReg (ihr _ (ihl σ h))
    have hwl : noW (genExpr l σ).1 := by
      rw [genExpr_ret]
      exact noW_reg _
    have hwr : noW (genExpr r (genExpr l σ).2).1 := by
      rw [genExpr_ret]
      exact noW_reg _
    unfold genExpr
    split
    · refine Inv_emit (ne_declLine_of_noW ?_ name) h3
      rw [newReg_fst]
      exact noW_append (noW_append (noW_append (noW_append
        (noW_append (noW_of_not_mem (by decide)) (noW_reg _))
        (noW_of_not_mem (by decide))) hwl) (noW_of_not_mem (by decide))) hwr
    · split
      · refine Inv_emit (ne_declLine_of_noW ?_ name) h3
        rw [newReg_fst]
        exact noW_append (noW_append (noW_append (noW_append
          (noW_append (noW_of_not_mem (by decide)) (noW_reg _))
          (noW_of_not_mem (by decide))) hwl) (noW_of_not_mem (by decide))) hwr
      · split
        · refine Inv_emit (ne_declLine_of_noW ?_ name) ?_
          · rw [newReg_fst]
            exact noW_append (noW_append (noW_of_not_mem (by decide)) (noW_reg _))
              (noW_of_not_mem (by decide))
          · refine Inv_emit (ne_declLine_of_noW ?_ name) ?_
            · rw [newReg_fst]
              exact noW_append (noW_append (noW_of_not_mem (by decide)) (noW_reg _))
                (noW_of_not_mem (by decide))
            · refine Inv_emit (ne_declLine_of_noW ?_ name) h3
              exact noW_append (noW_append (noW_append (noW_of_not_mem (by decide)) hwl)
                (noW_of_not_mem (by decide))) hwr
        · exact h3

mutual

theorem Inv_genStmt : ∀ (s : Stmt) (name : String) (σ : GenSt),
    Inv name σ → Inv name (genStmt s σ)
  | .svar n init, name, σ => by
    intro h
    cases init with
    | none => exact Inv_declare h
    | some e =>
      exact Inv_emit (ne_declLine_of_bracket (bracket_last _) name)
        (Inv_declare (Inv_genExpr e _ (Inv_declare h)))
  | .sassign n e, name, σ => by
    intro h
    exact Inv_emit (ne_declLine_of_bracket (bracket_last _) name)
      (Inv_declare (Inv_genExpr e _ h))
  | .sif c body, name, σ => by
    intro h
    have h1 : Inv name (emit ("BNE " ++ (getNewLabel (genExpr c σ).2).1)
        (emit ("CMP " ++ (genExpr c σ).1 ++ ", #1") (getNewLabel (genExpr c σ).2).2)) := by
      refine Inv_emit (ne_declLine_of_noW ?_ name) ?_
      · rw [newLabel_fst]
        exact noW_append (noW_of_not_mem (by decide)) (noW_labelStr _)
      · refine Inv_emit (ne_declLine_of_noW ?_ name) (Inv_newLabel (Inv_genExpr c σ h))
        have hw : noW (genExpr c σ).1 := by
          rw [genExpr_ret]
          exact noW_reg _
        exact noW_append (noW_append (noW_of_not_mem (by decide)) hw)
          (noW_of_not_mem (by decide))
    simp only [genStmt]
    refine Inv_emit (ne_declLine_of_noW ?_ name) (Inv_genStmts body name _ h1)
    rw [newLabel_fst]
    exact noW_append (noW_append (noW_of_not_mem (by decide)) (noW_natStr _))
      (noW_of_not_mem (by decide))

theorem Inv_genStmts : ∀ (l : StmtList) (name : String) (σ : GenSt),
    Inv name σ → Inv name (genStmts l σ)
  | .nil, name, σ => fun h => h
  | .cons s rest, name, σ => fun h => Inv_genStmts rest name _ (Inv_genStmt s name σ h)

end

theorem declare_vars_mem {name n : String} {σ : GenSt} :
    name ∈ (declareVariable n σ).vars ↔ (name ∈ σ.vars ∨ name = n) := by
  unfold declareVariable
  split
  · rename_i hmem
    constructor
    · exact Or.inl
    · rintro (h | h)
      · exact h
      · rw [h]; exact hmem
  · simp [List.mem_append]

theorem genExpr_vars_mem : ∀ (e : Expr) (σ : GenSt) (name : String),
    name ∈ (genExpr e σ).2.vars ↔ (name ∈ σ.vars ∨ mentionsE e name = true) := by
  intro e
  induction e with
  | num v => intro σ name; simp [genExpr, mentionsE]
  | ident nm =>
    intro σ name
    have hv : (genExpr (.ident nm) σ).2.vars = (declareVariable nm (getNewRegister σ).2).vars := rfl
    rw [hv, declare_vars_mem]
    have hm : (mentionsE (.ident nm) name = true) ↔ name = nm := by
      simp only [mentionsE, beq_iff_eq]
      exact eq_comm
    rw [hm]
    simp
  | binop op l r ihl ihr =>
    intro σ name
    unfold genExpr
    split
    · simp only [emit_vars, newReg_vars, ihr, ihl, mentionsE, Bool.or_eq_true]
      tauto
    · split
      · simp only [emit_vars, newReg_vars, ihr, ihl, mentionsE, Bool.or_eq_true]
        tauto
      · split
        · simp only [emit_vars, newReg_vars, ihr, ihl, mentionsE, Bool.or_eq_true]
          tauto
        · simp only [newReg_vars, ihr, ihl, mentionsE, Bool.or_eq_true]
          tauto

mutual

theorem genStmt_vars_mem : ∀ (s : Stmt) (σ : GenSt) (name : String),
    name ∈ (genStmt s σ).vars ↔ (name ∈ σ.vars ∨ mentionsS s name = true)
  | .svar n init, σ, name => by
    cases init with
    | none =>
      show name ∈ (declareVariable n σ).vars ↔ _
      rw [declare_vars_mem]
      simp only [mentionsS, Bool.or_eq_true, beq_iff_eq, Bool.or_false]
      constructor
      · rintro (h | h)
        · exact Or.inl h
        · exact Or.inr h.symm
      · rintro (h | h)
        · exact Or.inl h
        · exact Or.inr h.symm
    | some e =>
      show name ∈ (emit _ (declareVariable n (genExpr e (declareVariable n σ)).2)).vars ↔ _
      rw [emit_vars, declare_vars_mem, genExpr_vars_mem, declare_vars_mem]
      simp only [mentionsS, Bool.or_eq_true, beq_iff_eq]
      constructor
      · rintro ((( h | h) | h) | h) <;> tauto
      · rintro (h | h)
        · tauto
        · rcases h with h | h
          · exact Or.inr h.symm
          · tauto
  | .sassign n e, σ, name => by
    show name ∈ (emit _ (declareVariable n (genExpr e σ).2)).vars ↔ _
    rw [emit_vars, declare_vars_mem, genExpr_vars_mem]
    simp only [mentionsS, Bool.or_eq_true, beq_iff_eq]
    constructor
    · rintro ((h | h) | h) <;> tauto
    · rintro (h | h)
      · tauto
      · rcases h with h | h
        · exact Or.inr h.symm
        · tauto
  | .sif c body, σ, name => by
    show name ∈ (emit _ (genStmts body (emit _ (emit _ (getNewLabel (genExpr c σ).2).2)))).vars ↔ _
    rw [emit_vars, genStmts_vars_mem, emit_vars, emit_vars, newLabel_vars, genExpr_vars_mem]
    simp only [mentionsS, Bool.or_eq_true]
    tauto

theorem genStmts_vars_mem : ∀ (l : StmtList) (σ : GenSt) (name : String),
    name ∈ (genStmts l σ).vars ↔ (name ∈ σ.vars ∨ mentionsL l name = true)
  | .nil, σ, name => by simp [genStmts, mentionsL]
  | .cons s rest, σ, name => by
    show name ∈ (genStmts rest (genStmt s σ)).vars ↔ _
    rw [genStmts_vars_mem, genStmt_vars_mem]
    simp only [mentionsL, Bool.or_eq_true]
    tauto

end

/-- The data-slot line for a variable appears in the full compiler output
exactly once when the program mentions the variable, and not at all
otherwise. -/
theorem compileProgram_count (prog : StmtList) (name : String) :
    (compileProgram prog).count (declLine name) = if mentionsL prog name then 1 else 0 := by
  have hne : ∀ s : String, 'w' ∉ s.data → s ≠ declLine name := fun s h =>
    ne_declLine_of_noW (noW_of_not_mem h) name
  have e1 : (".section .data" : String) ≠ declLine name := hne _ (by decide)
  have e2 : (".section .text" : String) ≠ declLine name := hne _ (by decide)
  have e3 : (".global _start" : String) ≠ declLine name := hne _ (by decide)
  have e4 : ("_start:" : String) ≠ declLine name := hne _ (by decide)
  have hInv0 : Inv name (emit "_start:" (emit ".global _start"
      (emit ".section .text" (emit ".section .data" initialState)))) := by
    unfold Inv
    have hlist : (emit "_start:" (emit ".global _start"
        (emit ".section .text" (emit ".section .data" initialState)))).assemblyCode =
        [".section .data", ".section .text", ".global _start", "_start:"] := rfl
    have hv0 : (emit "_start:" (emit ".global _start"
        (emit ".section .text" (emit ".section .data" initialState)))).vars = [] := rfl
    rw [hlist, hv0]
    simp [List.count_cons, e1, e2, e3, e4]
  have h1 : Inv name (genStmts prog (emit "_start:" (emit ".global _start"
      (emit ".section .text" (emit ".section .data" initialState))))) :=
    Inv_genStmts prog name _ hInv0
  have h2 : Inv name (emit "SWI 0" (emit "MOV R0, #0" (emit "MOV R7, #1"
      (genStmts prog (emit "_start:" (emit ".global _start"
        (emit ".section .text" (emit ".section .data" initialState)))))))) :=
    Inv_emit (hne _ (by decide)) (Inv_emit (hne _ (by decide))
      (Inv_emit (hne _ (by decide)) h1))
  unfold Inv at h2
  simp only [emit_out, emit_vars] at h2
  have hv : (name ∈ (genStmts prog (emit "_start:" (emit ".global _start"
      (emit ".section .text" (emit ".section .data" initialState))))).vars) ↔
      mentionsL prog name = true := by
    rw [genStmts_vars_mem]
    simp [initialState]
  unfold compileProgram
  simp only [emit_out]
  rw [h2, if_congr hv rfl rfl]

theorem prefixed_natStr_inj {p : String} {a b : Nat}
    (h : p ++ natStr a = p ++ natStr b) : a = b := by
  have hd : p.data ++ (natStr a).data = p.data ++ (natStr b).data := congrArg String.data h
  exact natStr_inj (String.ext (List.append_cancel_left hd))

/-! ## Claims -/

/-- C1: the claim says that in every successfully compiled program all
`name: .word 0` lines appear between the `.section .data` header and the
`.section .text` header.  Compiling `int x;` refutes it: main emits the
prelude and the whole postlude before walking the tree, so the slot line
for `x` lands after `.section .text` and `_start:`, inside the text
section.  The repository's own documentation shows the slot lines before
`.section .text`, so this is a bug of the code, not of the claim. -/
theorem C1_decl_lines_inside_text_section :
    compileC "int x;" = .ok [".section .data", ".section .text", ".global _start", "_start:",
      "x: .word 0", "MOV R7, #1", "MOV R0, #0", "SWI 0"] ∧
    [".section .data", ".section .text", ".global _start", "_start:",
      "x: .word 0", "MOV R7, #1", "MOV R0, #0", "SWI 0"][1]? = some ".section .text" ∧
    [".section .data", ".section .text", ".global _start", "_start:",
      "x: .word 0", "MOV R7, #1", "MOV R0, #0", "SWI 0"][4]? = some (declLine "x") ∧
    (1 : Nat) < 4 :=
  ⟨rfl, rfl, rfl, by decide⟩

/-- C2: the claim says the equality production of final_cp.cpp consumes
both `==` and `!=` and that the generator emits a polarity-flipped compare
pattern for `!=`.  In final_cp.cpp the lexer never produces NotEqual (so
`x = a != b;` dies with "Expected ';'"), parseEquality leaves a NotEqual
token unconsumed, and BinaryOp codegen on op "!=" emits no instruction at
all after the operands. -/
theorem C2_not_equal_not_compiled :
    compileC "x = a != b;" = .error "Expected ';'" ∧
    parseEquality 10 [⟨.TIDENT, "a"⟩, ⟨.TNOTEQ, "!="⟩, ⟨.TIDENT, "b"⟩] =
      .ok (.ident "a", [⟨.TNOTEQ, "!="⟩, ⟨.TIDENT, "b"⟩]) ∧
    genExpr (.binop "!=" (.num 4) (.num 5)) initialState =
      ("R2", ⟨3, 0, [], ["MOV R0, #4", "MOV R1, #5"]⟩) :=
  ⟨rfl, rfl, rfl⟩

/-- C3: the claim describes the bang handling the spec states (NotEqual
when followed by `=`, else Unknown carrying the bang).  The parser.cpp
lexer behaves exactly so, but the final_cp.cpp lexer has no bang case at
all: on "!=" it yields Unknown("!") and then Assign("="), never NotEqual.
The code of final_cp.cpp contradicts the repository documentation and its
own NotEqual token kind. -/
theorem C3_bang_lexing :
    tokenize "!=".data = [⟨.TUNKNOWN, "!"⟩, ⟨.TASSIGN, "="⟩, eofTok] ∧
    (∀ rest, ppGetNextToken ('!' :: '=' :: rest) = (⟨.TNOTEQ, "!="⟩, rest)) ∧
    (∀ c rest, c ≠ '=' → ppGetNextToken ('!' :: c :: rest) = (⟨.TUNKNOWN, "!"⟩, c :: rest)) ∧
    ppGetNextToken ['!'] = (⟨.TUNKNOWN, "!"⟩, []) := by
  refine ⟨rfl, fun rest => rfl, ?_, rfl⟩
  intro c rest hc
  have hstep : ppGetNextToken ('!' :: c :: rest) =
      (match c :: rest with
       | '=' :: r2 => (⟨.TNOTEQ, "!="⟩, r2)
       | _ => (⟨.TUNKNOWN, "!"⟩, c :: rest)) := rfl
  rw [hstep]
  split
  · rename_i r2 heq
    injection heq with h1 h2
    exact absurd h1 hc
  · rfl

theorem C3_bang_lexing_witness :
    ('a' ≠ '=') ∧ ppGetNextToken ['!', 'a'] = (⟨.TUNKNOWN, "!"⟩, ['a']) :=
  ⟨by decide, C3_bang_lexing.2.2.1 'a' [] (by decide)⟩

/-- C4 counterexample: the claim says a missing `}` produces a parse
error naming that terminator.  On `if (1) ` followed by an open brace the
parse does fail, but with "Expected statement", which does not mention the
closing brace character at all. -/
theorem C4_missing_brace_counterexample :
    compileC "if (1) \x7b" = .error "Expected statement" ∧
    '\x7d' ∉ "Expected statement".data :=
  ⟨rfl, by decide⟩

/-- C4 (amended): a missing `;` at either site that expects one (after a
declaration, with or without initializer, and after an assignment) or a
missing `)` at either site that expects one (after a parenthesised
expression and after an if condition) produces a parse error naming that
terminator; a missing `}` (end of input inside an if body) aborts with
"Expected statement" instead; in every case the first error aborts the
whole parse, so no AST is returned. -/
theorem C4_terminator_errors :
    (∀ (f : Nat) (name : String) (ts : List Token) (e : Expr) (rest : List Token),
      parseExpression f ts = .ok (e, rest) → (peekT rest).type ≠ .TSEMI →
      parseAssignment (f+1) (⟨.TIDENT, name⟩ :: ⟨.TASSIGN, "="⟩ :: ts) = .error "Expected ';'") ∧
    (∀ (f : Nat) (name : String) (ts : List Token),
      (peekT ts).type ≠ .TASSIGN → (peekT ts).type ≠ .TSEMI →
      parseVarDeclaration (f+1) (⟨.TIDENT, name⟩ :: ts) = .error "Expected ';'") ∧
    (∀ (f : Nat) (ts : List Token) (e : Expr) (r1 : List Token),
      parseExpression f ts = .ok (e, r1) → (peekT r1).type ≠ .TRPAREN →
      parsePrimary (f+1) (⟨.TLPAREN, "("⟩ :: ts) = .error "Expected ')'") ∧
    (∀ (f : Nat) (ts : List Token),
      (peekT ts).type = .TEOF → ifBody (f+2) ts = .error "Expected statement") ∧
    (∀ (f : Nat) (ts : List Token) (msg : String),
      (peekT ts).type ≠ .TEOF → parseStatement f ts = .error msg →
      progLoop (f+1) ts = .error msg) ∧
    (∀ (f : Nat) (ts : List Token) (e : Expr) (r1 : List Token),
      parseExpression f ts = .ok (e, r1) → (peekT r1).type ≠ .TRPAREN →
      parseIf (f+1) (⟨.TLPAREN, "("⟩ :: ts) = .error "Expected ')'") ∧
    (∀ (f : Nat) (name : String) (ts : List Token) (e : Expr) (r1 : List Token),
      (peekT ts).type = .TASSIGN → parseExpression f (ts.drop 1) = .ok (e, r1) →
      (peekT r1).type ≠ .TSEMI →
      parseVarDeclaration (f+1) (⟨.TIDENT, name⟩ :: ts) = .error "Expected ';'") := by
  refine ⟨?_, ?_, ?_, ?_, ?_, ?_, ?_⟩
  · intro f name ts e rest hexp hsemi
    have hred : parseAssignment (f+1) (⟨.TIDENT, name⟩ :: ⟨.TASSIGN, "="⟩ :: ts) =
        (parseExpression f ts >>= fun x =>
          expectT .TSEMI "Expected ';'" x.2 >>= fun r3 => .ok (.sassign name x.1, r3)) := rfl
    rw [hred, hexp]
    show (expectT .TSEMI "Expected ';'" rest >>= fun r3 =>
      (.ok (.sassign name e, r3) : Except String (Stmt × List Token))) = .error "Expected ';'"
    unfold expectT
    rw [if_neg hsemi]
    rfl
  · intro f name ts hassign hsemi
    rw [parseVarDeclaration]
    have hc : (peekT ((⟨.TIDENT, name⟩ : Token) :: ts)).type = TokenType.TIDENT := rfl
    rw [if_pos hc]
    have hdrop : ((⟨.TIDENT, name⟩ : Token) :: ts).drop 1 = ts := rfl
    rw [hdrop, if_neg hassign]
    show (expectT .TSEMI "Expected ';'" ts >>= fun r1 =>
      (.ok (.svar (peekT (⟨.TIDENT, name⟩ :: ts)).text none, r1) :
        Except String (Stmt × List Token))) = .error "Expected ';'"
    unfold expectT
    rw [if_neg hsemi]
    rfl
  · intro f ts e r1 hexp hrp
    rw [parsePrimary]
    have hn1 : ¬ (peekT ((⟨.TLPAREN, "("⟩ : Token) :: ts)).type = TokenType.TNUMBER :=
      fun h => nomatch h
    have hn2 : ¬ (peekT ((⟨.TLPAREN, "("⟩ : Token) :: ts)).type = TokenType.TIDENT :=
      fun h => nomatch h
    have hc : (peekT ((⟨.TLPAREN, "("⟩ : Token) :: ts)).type = TokenType.TLPAREN := rfl
    rw [if_neg hn1, if_neg hn2, if_pos hc]
    have hdrop : ((⟨.TLPAREN, "("⟩ : Token) :: ts).drop 1 = ts := rfl
    rw [hdrop, hexp]
    show (expectT .TRPAREN "Expected ')'" r1 >>= fun r2 =>
      (.ok (e, r2) : Except String (Expr × List Token))) = .error "Expected ')'"
    unfold expectT
    rw [if_neg hrp]
    rfl
  · intro f ts heof
    rw [ifBody]
    rw [if_neg (by simp [heof])]
    have hstmt : parseStatement (f+1) ts = .error "Expected statement" := by
      rw [parseStatement]
      rw [if_neg (by simp [heof]), if_neg (by simp [heof]), if_neg (by simp [heof])]
    rw [hstmt]
    rfl
  · intro f ts msg hne hstmt
    rw [progLoop]
    rw [if_neg hne, hstmt]
    rfl
  · intro f ts e r1 hexp hrp
    have hred : parseIf (f+1) (⟨.TLPAREN, "("⟩ :: ts) =
        (parseExpression f ts >>= fun x =>
          expectT .TRPAREN "Expected ')'" x.2 >>= fun r2 =>
          expectT .TLBRACE "Expected '\x7b'" r2 >>= fun r3 =>
          ifBody f r3 >>= fun y => .ok (.sif x.1 y.1, y.2)) := rfl
    rw [hred, hexp]
    show (expectT .TRPAREN "Expected ')'" r1 >>= fun r2 =>
      expectT .TLBRACE "Expected '\x7b'" r2 >>= fun r3 =>
      ifBody f r3 >>= fun y =>
      (.ok (.sif e y.1, y.2) : Except String (Stmt × List Token))) = .error "Expected ')'"
    unfold expectT
    rw [if_neg hrp]
    rfl
  · intro f name ts e r1 hassign hexp hsemi
    rw [parseVarDeclaration]
    have hc : (peekT ((⟨.TIDENT, name⟩ : Token) :: ts)).type = TokenType.TIDENT := rfl
    rw [if_pos hc]
    have hdrop : ((⟨.TIDENT, name⟩ : Token) :: ts).drop 1 = ts := rfl
    rw [hdrop, if_pos hassign, hexp]
    show (expectT .TSEMI "Expected ';'" r1 >>= fun r2 =>
      (.ok (.svar name (some e), r2) : Except String (Stmt × List Token))) = .error "Expected ';'"
    unfold expectT
    rw [if_neg hsemi]
    rfl

theorem C4_terminator_errors_witness :
    (parseExpression 9 [⟨.TNUMBER, "1"⟩, ⟨.TRPAREN, ")"⟩] =
        .ok (.num 1, [⟨.TRPAREN, ")"⟩]) ∧
      parseAssignment 10 [⟨.TIDENT, "x"⟩, ⟨.TASSIGN, "="⟩, ⟨.TNUMBER, "1"⟩, ⟨.TRPAREN, ")"⟩] =
        .error "Expected ';'") ∧
    parseVarDeclaration 5 [⟨.TIDENT, "x"⟩, ⟨.TNUMBER, "5"⟩] = .error "Expected ';'" ∧
    parsePrimary 10 [⟨.TLPAREN, "("⟩, ⟨.TNUMBER, "1"⟩, ⟨.TSEMI, ";"⟩] = .error "Expected ')'" ∧
    ifBody 7 [eofTok] = .error "Expected statement" ∧
    progLoop 3 [⟨.TRBRACE, "\x7d"⟩] = .error "Expected statement" ∧
    parseIf 10 [⟨.TLPAREN, "("⟩, ⟨.TNUMBER, "1"⟩, ⟨.TSEMI, ";"⟩] = .error "Expected ')'" ∧
    parseVarDeclaration 10 [⟨.TIDENT, "x"⟩, ⟨.TASSIGN, "="⟩, ⟨.TNUMBER, "1"⟩, ⟨.TRPAREN, ")"⟩] =
      .error "Expected ';'" :=
  ⟨⟨rfl, C4_terminator_errors.1 9 "x" [⟨.TNUMBER, "1"⟩, ⟨.TRPAREN, ")"⟩] (.num 1)
      [⟨.TRPAREN, ")"⟩] rfl (by decide)⟩,
    C4_terminator_errors.2.1 4 "x" [⟨.TNUMBER, "5"⟩] (by decide) (by decide),
    C4_terminator_errors.2.2.1 9 [⟨.TNUMBER, "1"⟩, ⟨.TSEMI, ";"⟩] (.num 1) [⟨.TSEMI, ";"⟩]
      rfl (by decide),
    C4_terminator_errors.2.2.2.1 5 [eofTok] rfl,
    C4_terminator_errors.2.2.2.2.1 2 [⟨.TRBRACE, "\x7d"⟩] "Expected statement" (by decide) rfl,
    C4_terminator_errors.2.2.2.2.2.1 9 [⟨.TNUMBER, "1"⟩, ⟨.TSEMI, ";"⟩] (.num 1) [⟨.TSEMI, ";"⟩]
      rfl (by decide),
    C4_terminator_errors.2.2.2.2.2.2 9 "x" [⟨.TASSIGN, "="⟩, ⟨.TNUMBER, "1"⟩, ⟨.TRPAREN, ")"⟩]
      (.num 1) [⟨.TRPAREN, ")"⟩] rfl rfl (by decide)⟩

/-- C5: for every input text the final_cp.cpp lexer driver produces a
finite token list that ends in exactly one EndOfInput token, and scanning
never fails; once end of input is reached (the state after an EOF token is
the empty remainder) every further call yields EndOfInput again. -/
theorem C5_lexer_totality (cs : List Char) :
    (tokenize cs).getLast? = some eofTok ∧
    ((tokenize cs).filter (fun t => t.type == TokenType.TEOF)).length = 1 ∧
    (∀ ds t r, getNextToken ds = (t, r) → t.type = .TEOF →
      (t = eofTok ∧ r = [] ∧ getNextToken r = (eofTok, []))) := by
  obtain ⟨body, hb, hbt⟩ := tokenize_split cs
  refine ⟨?_, ?_, ?_⟩
  · rw [hb]
    exact List.getLast?_concat _
  · rw [hb, List.filter_append]
    have hbody : body.filter (fun t => t.type == TokenType.TEOF) = [] := by
      rw [List.filter_eq_nil]
      intro t ht
      simp [hbt t ht]
    rw [hbody]
    rfl
  · intro ds t r hnt ht
    obtain ⟨h1, h2⟩ := getNextToken_eof hnt ht
    exact ⟨h1, h2, by rw [h2]; rfl⟩

theorem C5_lexer_totality_witness :
    (tokenize "int a = 1;".data).getLast? = some eofTok ∧ getNextToken [] = (eofTok, []) :=
  ⟨(C5_lexer_totality "int a = 1;".data).1,
    ((C5_lexer_totality []).2.2 [] eofTok [] rfl rfl).2.2⟩

/-- C6: a Number token whose digits exceed the 32-bit int range makes the
whole compilation fail (std::stoi throws, main catches, output.s is never
written): compileC cannot return an ok result for such an input. -/
theorem C6_oversized_number_fatal (input : String)
    (h : ∃ t ∈ tokenize input.data, t.type = .TNUMBER ∧ 2147483647 < strToNat t.text) :
    ∀ out, compileC input ≠ .ok out := by
  intro out hok
  obtain ⟨t0, hmem, htype, hbig⟩ := h
  rcases hp : progLoop (((tokenize input.data).length + 4) * 8) (tokenize input.data)
    with e | q
  · have hc : compileC input = .error e := by
      simp only [compileC]
      rw [hp]
    rw [hc] at hok
    simp at hok
  · have := (progLoop_ok_numbers hp) t0 hmem htype
    omega

theorem C6_oversized_number_fatal_witness :
    compileC "x = 9999999999;" ≠ .ok [] :=
  C6_oversized_number_fatal "x = 9999999999;" (by decide) []

/-- C7: a declaration without initializer emits exactly the one data-slot
line `name: .word 0` (when the variable is new) and no store instruction:
the state changes only by recording the variable and appending that single
line; a redeclaration emits nothing at all. -/
theorem C7_default_declaration (σ : GenSt) (name : String) :
    (name ∉ σ.vars → genStmt (.svar name none) σ =
      { σ with vars := σ.vars ++ [name], assemblyCode := σ.assemblyCode ++ [declLine name] }) ∧
    (name ∈ σ.vars → genStmt (.svar name none) σ = σ) := by
  constructor
  · intro h
    show declareVariable name σ = _
    unfold declareVariable
    rw [if_neg h]
    rfl
  · intro h
    show declareVariable name σ = _
    unfold declareVariable
    rw [if_pos h]

theorem C7_default_declaration_witness :
    genStmt (.svar "x" none) initialState = ⟨0, 0, ["x"], ["x: .word 0"]⟩ ∧
    genStmt (.svar "x" none) ⟨0, 0, ["x"], ["x: .word 0"]⟩ = ⟨0, 0, ["x"], ["x: .word 0"]⟩ :=
  ⟨((C7_default_declaration initialState "x").1 (by decide)).trans rfl,
    (C7_default_declaration ⟨0, 0, ["x"], ["x: .word 0"]⟩ "x").2 (by decide)⟩

/-- C8: over the whole generated artifact, each variable name gets exactly
one `name: .word 0` data-slot line: one when the program mentions the name
(declared or not, however many times), zero otherwise. -/
theorem C8_single_decl_line (prog : StmtList) (name : String) :
    (compileProgram prog).count (declLine name) = if mentionsL prog name then 1 else 0 :=
  compileProgram_count prog name

/-- C9: every expression evaluation strictly advances the register counter
and returns the most recently allocated register, so two successive
evaluations return distinct register names; expressions never touch the
label counter; every If statement emits a branch to a label built from the
label counter at its entry, and the skip labels of two sibling If
statements (any statements in between) are distinct strings. -/
theorem C9_registers_labels_fresh :
    (∀ (e : Expr) (σ : GenSt),
      σ.registerCount < (genExpr e σ).2.registerCount ∧
      (genExpr e σ).1 = "R" ++ natStr ((genExpr e σ).2.registerCount - 1) ∧
      (genExpr e σ).2.labelCount = σ.labelCount) ∧
    (∀ (e1 e2 : Expr) (σ : GenSt),
      (genExpr e1 σ).1 ≠ (genExpr e2 (genExpr e1 σ).2).1) ∧
    (∀ (c1 : Expr) (b1 : StmtList) (c2 : Expr) (b2 : StmtList) (mid : StmtList) (σ : GenSt),
      ("BNE " ++ ("L" ++ natStr σ.labelCount)) ∈ (genStmt (.sif c1 b1) σ).assemblyCode ∧
      ("BNE " ++ ("L" ++ natStr (genStmts mid (genStmt (.sif c1 b1) σ)).labelCount)) ∈
        (genStmt (.sif c2 b2) (genStmts mid (genStmt (.sif c1 b1) σ))).assemblyCode ∧
      ("L" ++ natStr σ.labelCount : String) ≠
        "L" ++ natStr (genStmts mid (genStmt (.sif c1 b1) σ)).labelCount) := by
  refine ⟨?_, ?_, ?_⟩
  · intro e σ
    exact ⟨genExpr_rc e σ, genExpr_ret e σ, genExpr_lab e σ⟩
  · intro e1 e2 σ
    rw [genExpr_ret e1 σ, genExpr_ret e2 (genExpr e1 σ).2]
    intro he
    have hinj := prefixed_natStr_inj he
    have h1 := genExpr_rc e1 σ
    have h2 := genExpr_rc e2 (genExpr e1 σ).2
    omega
  · intro c1 b1 c2 b2 mid σ
    refine ⟨sif_BNE_mem c1 b1 σ, sif_BNE_mem c2 b2 _, ?_⟩
    intro he
    have hinj := prefixed_natStr_inj he
    have h1 := genStmt_sif_lab c1 b1 σ
    have h2 := genStmts_lab mid (genStmt (.sif c1 b1) σ)
    omega

theorem C9_registers_labels_fresh_witness :
    (genExpr (.num 1) initialState).1 ≠ (genExpr (.num 2) (genExpr (.num 1) initialState).2).1 ∧
    ("L" ++ natStr initialState.labelCount : String) ≠
      "L" ++ natStr (genStmts .nil (genStmt (.sif (.num 1) .nil) initialState)).labelCount :=
  ⟨C9_registers_labels_fresh.2.1 (.num 1) (.num 2) initialState,
    (C9_registers_labels_fresh.2.2 (.num 1) .nil (.num 2) .nil .nil initialState).2.2⟩

/-- C10: for a BinaryExpr whose operator is none of "+", "-", "==" (such
as "!="), code generation still evaluates both operands and allocates and
returns a fresh result register, but the final state is exactly the state
after the operands with only the register counter bumped: no instruction
computing the result register is emitted and no error is raised. -/
theorem C10_unsupported_op_dropped (op : String) (l r : Expr) (σ : GenSt)
    (h1 : op ≠ "+") (h2 : op ≠ "-") (h3 : op ≠ "==") :
    genExpr (.binop op l r) σ =
      ("R" ++ natStr (genExpr r (genExpr l σ).2).2.registerCount,
        { (genExpr r (genExpr l σ).2).2 with
          registerCount := (genExpr r (genExpr l σ).2).2.registerCount + 1 }) := by
  conv_lhs => rw [genExpr]
  rw [if_neg h1, if_neg h2, if_neg h3]
  rfl

theorem C10_unsupported_op_dropped_witness :
    genExpr (.binop "!=" (.num 1) (.num 2)) initialState =
      ("R2", ⟨3, 0, [], ["MOV R0, #1", "MOV R1, #2"]⟩) :=
  (C10_unsupported_op_dropped "!=" (.num 1) (.num 2) initialState
    (by decide) (by decide) (by decide)).trans rfl

end SLC
